import Mathlib

/-!
# TTL cache (`cache/cache.go`)

A shallow embedding of the in-memory TTL cache of `cache/cache.go`, with the
properties of its table operations, of the sweep pass and of the lifecycle of
the background sweep goroutine.

Modelling conventions.

* `time.Time` is an instant counted in nanoseconds from Go's zero instant
  (January 1, year 1, 00:00:00 UTC), so `IsZero` is "equal to `0`", `After` is
  the strict order and `Add` is addition.  `time.Duration` is a signed number
  of nanoseconds.
* `time.Now()` is an explicit argument `now` of every operation that reads the
  clock.  The wall clock never reads before the zero instant, so where a
  statement follows a deadline from the `Set` that armed it, the reading of
  that `Set` is a natural number.
* `map[string]Item` is an association list with pairwise distinct keys
  (`AList`); `c.items[key]` is `AList.lookup`, `c.items[key] = it` is
  `AList.insert` and `delete(c.items, key)` is `AList.erase`.
* A `range` loop over the map visits the entries of the table as it was when
  the loop started, in the order of the list.  Go leaves that order
  unspecified; no statement below depends on it.  The loop of `cleanExpired`
  deletes only the key it is visiting, so no entry is skipped.
* Every method body runs under the cache's mutex, so each call is one atomic
  state transition `Cache → result × Cache`.
-/

namespace TTLCache

/-- Instants of `time.Time`: nanoseconds from the zero instant. -/
abbrev Time := Int

/-- Values of `time.Duration`: signed nanoseconds. -/
abbrev Duration := Int

/-- Go `t.IsZero()`: the instant is the zero instant. -/
def Time.IsZero (t : Time) : Bool := decide (t = 0)

/-- Go `t.After(u)`: `t` is strictly later than `u`. -/
def Time.After (t u : Time) : Bool := decide (u < t)

/-- Go `t.Add(d)`. -/
def Time.Add (t : Time) (d : Duration) : Time := t + d

/-- Stored unit `Item` (`cache.go`, lines 12-15). -/
structure Item where
  Value : String
  ExpireAt : Time
deriving DecidableEq, Repr

/-- A `chan struct{}` used only for closing: its identity and whether it has
been closed. -/
structure Chan where
  id : Nat
  closed : Bool
deriving DecidableEq, Repr

/-- A `*time.Ticker`: its period and whether `Stop` has been called. -/
structure Ticker where
  period : Duration
  stopped : Bool
deriving DecidableEq, Repr

/-- The key → item table. -/
abbrev Table := AList (fun _ : String => Item)

instance : DecidableEq Table := fun a b =>
  decidable_of_iff (a.entries = b.entries) ⟨AList.ext, fun h => congrArg AList.entries h⟩

/-- State of a `Cache` (`cache.go`, lines 19-29); the mutex is left out, each
operation below being one critical section. -/
structure Cache where
  items : Table
  cleanupInterval : Duration
  ticker : Option Ticker
  stopCh : Chan
  running : Bool
deriving DecidableEq

/-- Constructor `NewCache` (`cache.go`, lines 33-39). -/
def NewCache (cleanupInterval : Duration) : Cache :=
  { items := ∅
    cleanupInterval := cleanupInterval
    ticker := none
    stopCh := { id := 0, closed := false }
    running := false }

/-- Method `Delete` (`cache.go`, lines 77-81). -/
def Cache.Delete (c : Cache) (key : String) : Cache :=
  { c with items := c.items.erase key }

/-- Method `Set` (`cache.go`, lines 43-53); `now` is the value of
`time.Now()`. -/
def Cache.Set (c : Cache) (key value : String) (ttl : Duration) (now : Time) : Cache :=
  if ttl ≤ 0 then
    c.Delete key
  else
    let exp := Time.Add now ttl
    { c with items := c.items.insert key { Value := value, ExpireAt := exp } }

/-- Method `Get` (`cache.go`, lines 57-74); returns the pair `(value, found)`
and the state after the call. -/
def Cache.Get (c : Cache) (key : String) (now : Time) : (String × Bool) × Cache :=
  match c.items.lookup key with
  | none => (("", false), c)
  | some it =>
    if !it.ExpireAt.IsZero && now.After it.ExpireAt then
      (("", false), { c with items := c.items.erase key })
    else
      ((it.Value, true), c)

/-- Method `Exists` (`cache.go`, lines 84-87): the found flag of `Get`. -/
def Cache.Exists (c : Cache) (key : String) (now : Time) : Bool × Cache :=
  let r := c.Get key now
  (r.1.2, r.2)

/-- Method `Keys` (`cache.go`, lines 90-98): the loop appends each key of the
table to the result slice; the table is only read. -/
def Cache.Keys (c : Cache) : List String × Cache :=
  (c.items.entries.foldl (fun keys e => keys ++ [e.1]) [], c)

/-- Body of the loop of `cleanExpired` (`cache.go`, lines 105-107) for the
entry `e`, on the table `m` reached so far. -/
def sweepEntry (now : Time) (m : Table) (e : (_ : String) × Item) : Table :=
  if !e.2.ExpireAt.IsZero && now.After e.2.ExpireAt then m.erase e.1 else m

/-- Method `cleanExpired` (`cache.go`, lines 101-110): the loop visits each
entry of the table and deletes the ones whose deadline has passed at `now`. -/
def Cache.cleanExpired (c : Cache) (now : Time) : Cache :=
  { c with items := c.items.entries.foldl (sweepEntry now) c.items }

/-! ## The sweep task and its lifecycle

`CleanUp` starts a goroutine and `Close` signals it through `c.stopCh`.  The
goroutine and the callers share the cache and the channels, so the lifecycle is
modelled on a system state: the cache, the registry of channels closed so far,
the allocator of `make(chan struct{})`, and the control point of every goroutine
launched.  A step of the system is one critical section or channel operation
of one actor; `Close` is taken here as running to completion, which is one of
its possible interleavings with the goroutine.  Ticks are input of the
environment: a goroutine inside `select` may receive one at any time, as it
does from a ticker that has not been stopped.
-/

/-- Method `CleanUp` (`cache.go`, lines 113-125), up to the `go` statement:
the state after the call, and whether the goroutine of lines 127-142 is
launched. -/
def Cache.CleanUp (c : Cache) : Cache × Bool :=
  if c.cleanupInterval ≤ 0 then
    (c, false)
  else if c.running then
    (c, false)
  else
    ({ c with ticker := some { period := c.cleanupInterval, stopped := false }
              running := true }, true)

/-- Control point of the goroutine of `CleanUp` (`cache.go`, lines 127-142):
at the head of the `for` loop; inside `select`, where the operand `c.stopCh`
has been evaluated to the channel `stop`; or returned. -/
inductive TaskPc where
  | atLoop
  | inSelect (stop : Nat)
  | exited
deriving DecidableEq, Repr

/-- The cache with what it shares with its goroutines: the identities of the
channels closed so far, the next fresh channel identity, and the goroutines
launched by `CleanUp`, in launch order. -/
structure Sys where
  cache : Cache
  closedChans : List Nat
  nextChan : Nat
  tasks : List TaskPc
deriving DecidableEq

/-- The system right after `NewCache`: channel `0` is `stopCh`, no goroutine. -/
def Sys.init (cleanupInterval : Duration) : Sys :=
  { cache := NewCache cleanupInterval
    closedChans := []
    nextChan := 1
    tasks := [] }

/-- Method `Close` (`cache.go`, lines 146-157), run to completion.  `none` is
the panic of `close` on a channel that is already closed. -/
def Sys.Close (s : Sys) : Option Sys :=
  let running := s.cache.running
  if running then
    if s.cache.stopCh.closed ∨ s.cache.stopCh.id ∈ s.closedChans then
      none
    else
      some { cache := { s.cache with stopCh := { id := s.nextChan, closed := false } }
             closedChans := s.cache.stopCh.id :: s.closedChans
             nextChan := s.nextChan + 1
             tasks := s.tasks }
  else
    some s

/-- Steps of the system: a caller runs `CleanUp` or `Close`; goroutine `i`
enters its `select` (evaluating `c.ticker.C` and `c.stopCh`), receives a tick
and runs `cleanExpired` at the time `now`, or receives from its stop channel
and returns. -/
inductive Event where
  | cleanUp
  | close
  | taskSelect (i : Nat)
  | taskTick (i : Nat) (now : Time)
  | taskStop (i : Nat)
deriving DecidableEq, Repr

/-- One step of the system; `none` when the step cannot be taken in `s` (the
goroutine is not at that point, its stop channel is not closed) or panics. -/
def Sys.step (s : Sys) : Event → Option Sys
  | Event.cleanUp =>
    let r := s.cache.CleanUp
    some { s with cache := r.1, tasks := if r.2 then s.tasks ++ [TaskPc.atLoop] else s.tasks }
  | Event.close => s.Close
  | Event.taskSelect i =>
    match s.tasks.get? i, s.cache.ticker with
    | some TaskPc.atLoop, some _ =>
      some { s with tasks := s.tasks.set i (TaskPc.inSelect s.cache.stopCh.id) }
    | _, _ => none
  | Event.taskTick i now =>
    match s.tasks.get? i with
    | some (TaskPc.inSelect _) =>
      some { s with cache := s.cache.cleanExpired now, tasks := s.tasks.set i TaskPc.atLoop }
    | _ => none
  | Event.taskStop i =>
    match s.tasks.get? i with
    | some (TaskPc.inSelect stop) =>
      if stop ∈ s.closedChans then
        some { s with
          cache := { s.cache with
            ticker := s.cache.ticker.map (fun t => { t with stopped := true })
            running := false }
          tasks := s.tasks.set i TaskPc.exited }
      else none
    | _ => none

/-- Runs a schedule, step by step. -/
def Sys.run (s : Sys) : List Event → Option Sys
  | [] => some s
  | e :: es => (s.step e).bind (fun s1 => s1.run es)

/-- The stop channel held by the cache is open and allocated, and every closed
channel is allocated. -/
def Sys.StopChOpen (s : Sys) : Prop :=
  s.cache.stopCh.closed = false ∧ s.cache.stopCh.id ∉ s.closedChans ∧
    s.cache.stopCh.id < s.nextChan ∧ ∀ i ∈ s.closedChans, i < s.nextChan

/-- One action on the system: a call of a method of the cache by a caller,
with the reading of the clock it observes, or a step of the lifecycle. -/
inductive Op where
  | callSet (key value : String) (ttl : Duration) (now : Time)
  | callGet (key : String) (now : Time)
  | callExists (key : String) (now : Time)
  | callDelete (key : String)
  | callKeys
  | event (e : Event)
deriving DecidableEq, Repr

/-- Whether the action is a write to `key` by a caller: a `Set` or a `Delete`
on that key. -/
def Op.writes (key : String) : Op → Bool
  | Op.callSet k _ _ _ => decide (k = key)
  | Op.callDelete k => decide (k = key)
  | _ => false

/-- Effect of one action on the system; the value a call returns is dropped.
`none` as for `Sys.step`. -/
def Sys.apply (s : Sys) : Op → Option Sys
  | Op.callSet key value ttl now => some { s with cache := s.cache.Set key value ttl now }
  | Op.callGet key now => some { s with cache := (s.cache.Get key now).2 }
  | Op.callExists key now => some { s with cache := (s.cache.Exists key now).2 }
  | Op.callDelete key => some { s with cache := s.cache.Delete key }
  | Op.callKeys => some { s with cache := s.cache.Keys.2 }
  | Op.event e => s.step e

/-- Runs a sequence of actions, one after the other. -/
def Sys.exec (s : Sys) : List Op → Option Sys
  | [] => some s
  | op :: ops => (s.apply op).bind (fun s1 => s1.exec ops)

/-! ## Auxiliary facts on the table -/

theorem Time.isZero_iff (t : Time) : t.IsZero = true ↔ t = 0 := by
  simp [Time.IsZero]

theorem Time.after_iff (t u : Time) : t.After u = true ↔ u < t := by
  simp [Time.After]

theorem Table.erase_of_lookup_eq_none (m : Table) (key : String)
    (h : m.lookup key = none) : m.erase key = m := by
  apply AList.ext
  have hk : key ∉ m.entries.keys := by
    have := AList.lookup_eq_none.mp h
    simpa [AList.mem_keys, AList.keys] using this
  simpa [AList.erase] using List.kerase_of_not_mem_keys hk

theorem Table.insert_erase (m : Table) (key : String) (it : Item) :
    (m.erase key).insert key it = m.insert key it := by
  apply AList.ext
  have hk : key ∉ (m.entries.kerase key).keys := List.not_mem_keys_kerase key m.nodupKeys
  simp [AList.insert_entries, AList.erase, List.kerase_of_not_mem_keys hk]

theorem Table.lookup_foldl_sweepEntry (now : Time) (k : String) :
    ∀ (l : List ((_ : String) × Item)) (m : Table),
      (l.foldl (sweepEntry now) m).lookup k =
        if ∃ e ∈ l, e.1 = k ∧ (!e.2.ExpireAt.IsZero && now.After e.2.ExpireAt) = true
        then none else m.lookup k := by
  intro l
  induction l with
  | nil => intro m; simp
  | cons e l ih =>
    intro m
    rw [List.foldl_cons, ih]
    have hcons : (∃ e1 ∈ e :: l, e1.1 = k ∧
          (!e1.2.ExpireAt.IsZero && now.After e1.2.ExpireAt) = true) ↔
        (e.1 = k ∧ (!e.2.ExpireAt.IsZero && now.After e.2.ExpireAt) = true) ∨
          ∃ e1 ∈ l, e1.1 = k ∧
            (!e1.2.ExpireAt.IsZero && now.After e1.2.ExpireAt) = true := by
      constructor
      · rintro ⟨e1, hmem, h1⟩
        rcases List.mem_cons.mp hmem with rfl | hmem
        · exact Or.inl h1
        · exact Or.inr ⟨e1, hmem, h1⟩
      · rintro (h1 | ⟨e1, hmem, h1⟩)
        · exact ⟨e, List.mem_cons_self _ _, h1⟩
        · exact ⟨e1, List.mem_cons_of_mem _ hmem, h1⟩
    by_cases hl : ∃ e1 ∈ l, e1.1 = k ∧
        (!e1.2.ExpireAt.IsZero && now.After e1.2.ExpireAt) = true
    · rw [if_pos hl, if_pos (hcons.mpr (Or.inr hl))]
    · rw [if_neg hl]
      by_cases hst : (!e.2.ExpireAt.IsZero && now.After e.2.ExpireAt) = true
      · by_cases hk : e.1 = k
        · rw [if_pos (hcons.mpr (Or.inl ⟨hk, hst⟩))]
          subst hk
          unfold sweepEntry
          rw [if_pos hst]
          exact AList.lookup_erase _ _
        · rw [if_neg (fun h => (hcons.mp h).elim (fun h1 => hk h1.1) hl)]
          unfold sweepEntry
          rw [if_pos hst]
          exact AList.lookup_erase_ne (fun h => hk h.symm)
      · rw [if_neg (fun h => (hcons.mp h).elim (fun h1 => hst h1.2) hl)]
        unfold sweepEntry
        rw [if_neg hst]

/-- One sweep pass keeps exactly the entries that are not stale at `now`. -/
theorem Cache.lookup_cleanExpired (c : Cache) (now : Time) (k : String) :
    (c.cleanExpired now).items.lookup k =
      (c.items.lookup k).filter
        (fun it => !(!it.ExpireAt.IsZero && now.After it.ExpireAt)) := by
  show (c.items.entries.foldl (sweepEntry now) c.items).lookup k = _
  rw [Table.lookup_foldl_sweepEntry]
  cases hl : c.items.lookup k with
  | none =>
    have hno : ¬ ∃ e ∈ c.items.entries, e.1 = k ∧
        (!e.2.ExpireAt.IsZero && now.After e.2.ExpireAt) = true := by
      rintro ⟨⟨k1, it⟩, hmem, hk, -⟩
      simp only at hk
      subst hk
      have : it ∈ c.items.lookup k1 := AList.mem_lookup_iff.mpr hmem
      rw [hl] at this
      exact absurd this (by simp)
    simp [hno]
  | some it =>
    have hmem : (⟨k, it⟩ : (_ : String) × Item) ∈ c.items.entries :=
      AList.mem_lookup_iff.mp (by rw [hl]; exact rfl)
    by_cases hst : (!it.ExpireAt.IsZero && now.After it.ExpireAt) = true
    · have hex : ∃ e ∈ c.items.entries, e.1 = k ∧
          (!e.2.ExpireAt.IsZero && now.After e.2.ExpireAt) = true :=
        ⟨⟨k, it⟩, hmem, rfl, hst⟩
      rw [if_pos hex]
      simp [Option.filter, hst]
    · have hno : ¬ ∃ e ∈ c.items.entries, e.1 = k ∧
          (!e.2.ExpireAt.IsZero && now.After e.2.ExpireAt) = true := by
        rintro ⟨⟨k1, it1⟩, hmem1, hk, h1⟩
        simp only at hk
        subst hk
        have h2 : it1 ∈ c.items.lookup k1 := AList.mem_lookup_iff.mpr hmem1
        rw [hl] at h2
        have h3 : it = it1 := by simpa using h2
        subst h3
        exact hst h1
      rw [if_neg hno]
      simp [Option.filter, hst]

theorem Cache.keys_eq (c : Cache) : c.Keys.1 = c.items.keys := by
  have h : ∀ (l : List ((_ : String) × Item)) (acc : List String),
      l.foldl (fun keys e => keys ++ [e.1]) acc = acc ++ l.map Sigma.fst := by
    intro l
    induction l with
    | nil => intro acc; simp
    | cons e l ih => intro acc; simp [ih]
  simp [Cache.Keys, h, AList.keys, List.keys]

theorem Cache.get_of_lookup_none (c : Cache) (key : String) (now : Time)
    (h : c.items.lookup key = none) : c.Get key now = (("", false), c) := by
  simp [Cache.Get, h]

theorem Cache.get_of_live (c : Cache) (key : String) (now : Time) (it : Item)
    (h : c.items.lookup key = some it) (hlive : it.ExpireAt = 0 ∨ now ≤ it.ExpireAt) :
    c.Get key now = ((it.Value, true), c) := by
  have hst : ¬ ((!it.ExpireAt.IsZero && now.After it.ExpireAt) = true) := by
    simp only [Bool.and_eq_true, Bool.not_eq_true', Time.after_iff, not_and, not_lt]
    intro hz
    rcases hlive with h0 | hle
    · rw [h0] at hz
      simp [Time.IsZero] at hz
    · exact hle
  simp only [Cache.Get, h]
  rw [if_neg hst]

theorem Cache.get_of_stale (c : Cache) (key : String) (now : Time) (it : Item)
    (h : c.items.lookup key = some it) (hnz : it.ExpireAt ≠ 0) (hpast : it.ExpireAt < now) :
    c.Get key now = (("", false), c.Delete key) := by
  have hst : (!it.ExpireAt.IsZero && now.After it.ExpireAt) = true := by
    simp [Time.IsZero, Time.After, hnz, hpast]
  simp only [Cache.Get, h]
  rw [if_pos hst]
  rfl

/-! ## Set, Get and expiry -/

/-- C1. After `Set(key, value, ttl)` with `ttl > 0` at time `t0`, a `Get(key)`
that runs next at a time `t` with `t0 ≤ t` and `t - t0 < ttl` returns
`(value, true)`. -/
theorem set_get_before_expiry (c : Cache) (key value : String) (ttl : Duration)
    (t0 t : Time) (httl : 0 < ttl) (_h0 : t0 ≤ t) (hlt : t - t0 < ttl) :
    ((c.Set key value ttl t0).Get key t).1 = (value, true) := by
  have hset : (c.Set key value ttl t0).items.lookup key =
      some { Value := value, ExpireAt := t0 + ttl } := by
    simp [Cache.Set, not_le.mpr httl, Time.Add]
  rw [Cache.get_of_live _ key t _ hset (Or.inr (by show t ≤ t0 + ttl; linarith))]

/-- Instance of C1 on the scenario of `TestSetGet_BeforeExpiry`. -/
theorem set_get_before_expiry_witness :
    (((NewCache 0).Set "k" "v" 150 1000).Get "k" 1000).1 = ("v", true) :=
  set_get_before_expiry (NewCache 0) "k" "v" 150 1000 1000 (by decide) (by decide) (by decide)

/-- C2, as stated, fails at the deadline itself: with `ttl = 50` set at time
`100`, a `Get` at time `150` (elapsed time `= ttl`) still returns the value,
and the `Exists` after it returns `true`. -/
theorem get_at_deadline_still_found :
    (0 : Duration) < 50 ∧ (150 : Time) - 100 ≥ 50 ∧
    (((NewCache 0).Set "k" "v" 50 100).Get "k" 150).1 = ("v", true) ∧
    ((((NewCache 0).Set "k" "v" 50 100).Get "k" 150).2.Exists "k" 150).1 = true := by
  decide

/-- C3. For `ttl ≤ 0`, `Set(key, value, ttl)` yields the same state as
`Delete(key)`, the table holds no entry for `key`, and a following `Get(key)`
at any time returns `("", false)`. -/
theorem set_nonpositive_ttl_eq_delete (c : Cache) (key value : String) (ttl : Duration)
    (now : Time) (httl : ttl ≤ 0) :
    c.Set key value ttl now = c.Delete key ∧
    (c.Set key value ttl now).items.lookup key = none ∧
    ∀ t : Time, ((c.Set key value ttl now).Get key t).1 = ("", false) := by
  have hset : c.Set key value ttl now = c.Delete key := by simp [Cache.Set, httl]
  have hnone : (c.Delete key).items.lookup key = none := AList.lookup_erase _ _
  rw [hset]
  exact ⟨rfl, hnone, fun t => by rw [Cache.get_of_lookup_none _ key t hnone]⟩

/-- Instance of C3: a negative ttl on a key that is present. -/
theorem set_nonpositive_ttl_eq_delete_witness :
    ((NewCache 0).Set "k" "v" 50 100).Set "k" "w" (-1) 120 =
      ((NewCache 0).Set "k" "v" 50 100).Delete "k" ∧
    (((NewCache 0).Set "k" "v" 50 100).Set "k" "w" (-1) 120).items.lookup "k" = none ∧
    ∀ t : Time,
      ((((NewCache 0).Set "k" "v" 50 100).Set "k" "w" (-1) 120).Get "k" t).1 = ("", false) :=
  set_nonpositive_ttl_eq_delete ((NewCache 0).Set "k" "v" 50 100) "k" "w" (-1) 120 (by decide)

/-- C4. When the table holds for `key` an entry whose `ExpireAt` is non-zero
and has passed at `now`, `Get(key)` returns `("", false)` and the table after
the call is the table before it with `key` removed, so it no longer contains
`key`. -/
theorem get_evicts_stale (c : Cache) (key : String) (now : Time) (it : Item)
    (hit : c.items.lookup key = some it) (hnz : it.ExpireAt ≠ 0)
    (hpast : it.ExpireAt < now) :
    (c.Get key now).1 = ("", false) ∧
    (c.Get key now).2.items = c.items.erase key ∧
    (c.Get key now).2.items.lookup key = none ∧
    key ∉ (c.Get key now).2.Keys.1 := by
  rw [Cache.get_of_stale c key now it hit hnz hpast]
  have hnone : (c.Delete key).items.lookup key = none := AList.lookup_erase _ _
  refine ⟨rfl, rfl, hnone, ?_⟩
  rw [Cache.keys_eq]
  exact AList.lookup_eq_none.mp hnone

/-- Instance of C4: an entry with deadline `150` read at time `190`. -/
theorem get_evicts_stale_witness :
    (((NewCache 0).Set "k" "v" 50 100).Get "k" 190).1 = ("", false) ∧
    (((NewCache 0).Set "k" "v" 50 100).Get "k" 190).2.items =
      ((NewCache 0).Set "k" "v" 50 100).items.erase "k" ∧
    (((NewCache 0).Set "k" "v" 50 100).Get "k" 190).2.items.lookup "k" = none ∧
    "k" ∉ (((NewCache 0).Set "k" "v" 50 100).Get "k" 190).2.Keys.1 :=
  get_evicts_stale ((NewCache 0).Set "k" "v" 50 100) "k" 190 ⟨"v", 150⟩
    (by decide) (by decide) (by decide)

/-- C5. An entry whose `ExpireAt` is the zero sentinel never expires: at every
time `now`, `Get(key)` returns `(value, true)` and `Exists(key)` returns `true`,
both leaving the state unchanged, and a sweep pass at `now` leaves the entry in
the table. -/
theorem zero_deadline_never_expires (c : Cache) (key value : String) (now : Time)
    (hit : c.items.lookup key = some { Value := value, ExpireAt := 0 }) :
    c.Get key now = ((value, true), c) ∧
    c.Exists key now = (true, c) ∧
    (c.cleanExpired now).items.lookup key = some { Value := value, ExpireAt := 0 } := by
  have hget := Cache.get_of_live c key now _ hit (Or.inl rfl)
  refine ⟨hget, ?_, ?_⟩
  · simp [Cache.Exists, hget]
  · rw [Cache.lookup_cleanExpired, hit]
    simp [Option.filter, Time.IsZero]

/-- Instance of C5: a table whose only entry has the zero deadline, read and
swept at time `1000000`. -/
theorem zero_deadline_never_expires_witness :
    ({ NewCache 0 with items := AList.singleton "k" ⟨"v", 0⟩ } : Cache).Get "k" 1000000 =
      (("v", true), { NewCache 0 with items := AList.singleton "k" ⟨"v", 0⟩ }) ∧
    ({ NewCache 0 with items := AList.singleton "k" ⟨"v", 0⟩ } : Cache).Exists "k" 1000000 =
      (true, { NewCache 0 with items := AList.singleton "k" ⟨"v", 0⟩ }) ∧
    (({ NewCache 0 with items := AList.singleton "k" ⟨"v", 0⟩ } : Cache).cleanExpired
      1000000).items.lookup "k" = some { Value := "v", ExpireAt := 0 } :=
  zero_deadline_never_expires { NewCache 0 with items := AList.singleton "k" ⟨"v", 0⟩ }
    "k" "v" 1000000 (by decide)

/-! ## Delete, Exists and Keys -/

/-- C6. In every state, `Delete(key)` followed by `Get(key)` at any time
returns `("", false)` (and that `Get` changes nothing). -/
theorem delete_then_get_not_found (c : Cache) (key : String) (now : Time) :
    ((c.Delete key).Get key now).1 = ("", false) ∧
    ((c.Delete key).Get key now).2 = c.Delete key := by
  have hnone : (c.Delete key).items.lookup key = none := AList.lookup_erase _ _
  rw [Cache.get_of_lookup_none _ key now hnone]
  exact ⟨rfl, rfl⟩

/-- C7. The table after `Delete(key)` is the table before it with `key`
removed: `key` has no entry, every other key keeps its entry, the other fields
of the cache are untouched; and when `key` is absent the whole state is
unchanged. -/
theorem delete_removes_key (c : Cache) (key : String) :
    (c.Delete key).items = c.items.erase key ∧
    (c.Delete key).items.lookup key = none ∧
    (∀ k : String, k ≠ key → (c.Delete key).items.lookup k = c.items.lookup k) ∧
    (c.Delete key).cleanupInterval = c.cleanupInterval ∧
    (c.Delete key).ticker = c.ticker ∧
    (c.Delete key).stopCh = c.stopCh ∧
    (c.Delete key).running = c.running ∧
    (c.items.lookup key = none → c.Delete key = c) := by
  refine ⟨rfl, AList.lookup_erase _ _, fun k hk => AList.lookup_erase_ne hk,
    rfl, rfl, rfl, rfl, fun h => ?_⟩
  show { c with items := c.items.erase key } = c
  rw [Table.erase_of_lookup_eq_none c.items key h]

/-- C8. `Exists(key)` returns exactly the found flag of `Get(key)` at the same
time and leaves the cache in the state `Get(key)` leaves it; it returns `true`
only when the table holds for `key` an entry whose deadline is zero or has not
passed, and on a stale entry it returns `false` and evicts the entry. -/
theorem exists_eq_get_found (c : Cache) (key : String) (now : Time) :
    (c.Exists key now).1 = (c.Get key now).1.2 ∧
    (c.Exists key now).2 = (c.Get key now).2 ∧
    ((c.Exists key now).1 = true ↔
      ∃ it : Item, c.items.lookup key = some it ∧ (it.ExpireAt = 0 ∨ now ≤ it.ExpireAt)) ∧
    (∀ it : Item, c.items.lookup key = some it → it.ExpireAt ≠ 0 → it.ExpireAt < now →
      c.Exists key now = (false, c.Delete key)) := by
  refine ⟨rfl, rfl, ?_, fun it hit hnz hpast => ?_⟩
  · cases hl : c.items.lookup key with
    | none => simp [Cache.Exists, Cache.get_of_lookup_none c key now hl]
    | some it =>
      by_cases hlive : it.ExpireAt = 0 ∨ now ≤ it.ExpireAt
      · simp [Cache.Exists, Cache.get_of_live c key now it hl hlive, hlive]
      · have hnz : it.ExpireAt ≠ 0 := fun h => hlive (Or.inl h)
        have hpast : it.ExpireAt < now := not_le.mp (fun h => hlive (Or.inr h))
        simp [Cache.Exists, Cache.get_of_stale c key now it hl hnz hpast, hlive]
  · simp [Cache.Exists, Cache.get_of_stale c key now it hit hnz hpast]

/-- C9. `Keys()` returns each key of the table exactly once and nothing else,
whatever the deadlines of the entries, and leaves the state unchanged; right
after `Set(key, value, ttl)` with `ttl > 0` it contains `key`. -/
theorem keys_exactly_table_keys (c : Cache) :
    c.Keys.1.Nodup ∧
    (∀ k : String, k ∈ c.Keys.1 ↔ ∃ it : Item, c.items.lookup k = some it) ∧
    c.Keys.2 = c ∧
    (∀ (key value : String) (ttl : Duration) (now : Time), 0 < ttl →
      key ∈ (c.Set key value ttl now).Keys.1) := by
  have hmem : ∀ (d : Cache) (k : String),
      k ∈ d.Keys.1 ↔ ∃ it : Item, d.items.lookup k = some it := by
    intro d k
    rw [Cache.keys_eq, ← AList.mem_keys, ← AList.lookup_isSome, Option.isSome_iff_exists]
  refine ⟨?_, hmem c, rfl, fun key value ttl now httl => ?_⟩
  · rw [Cache.keys_eq]
    exact AList.keys_nodup _
  · rw [hmem]
    exact ⟨{ Value := value, ExpireAt := now + ttl }, by
      simp [Cache.Set, not_le.mpr httl, Time.Add]⟩

/-- C10. Last write wins: after `Set(key, value, ttl)` with `ttl > 0` at time
`now` the entry of `key` is exactly `(value, now + ttl)`, whatever the state
before; and a `Set` on `key` followed by a `Set(key, v2, ttl2)` with `ttl2 > 0`
yields the same state as that second `Set` alone. -/
theorem set_last_write_wins (c : Cache) (key v1 v2 : String) (ttl1 ttl2 : Duration)
    (t1 t2 : Time) (httl : 0 < ttl2) :
    (c.Set key v2 ttl2 t2).items.lookup key = some { Value := v2, ExpireAt := t2 + ttl2 } ∧
    ((c.Set key v1 ttl1 t1).Set key v2 ttl2 t2).items.lookup key =
      some { Value := v2, ExpireAt := t2 + ttl2 } ∧
    (c.Set key v1 ttl1 t1).Set key v2 ttl2 t2 = c.Set key v2 ttl2 t2 := by
  have hset : ∀ d : Cache, (d.Set key v2 ttl2 t2).items.lookup key =
      some { Value := v2, ExpireAt := t2 + ttl2 } := by
    intro d
    simp [Cache.Set, not_le.mpr httl, Time.Add]
  refine ⟨hset c, hset _, ?_⟩
  by_cases h1 : ttl1 ≤ 0
  · simp [Cache.Set, not_le.mpr httl, h1, Cache.Delete, Table.insert_erase]
  · simp [Cache.Set, not_le.mpr httl, h1, AList.insert_insert]

/-- Instance of C10: `Set("k", "a", 50)` at time `100` overwritten by
`Set("k", "b", 20)` at time `110`. -/
theorem set_last_write_wins_witness :
    ((NewCache 0).Set "k" "b" 20 110).items.lookup "k" =
      some { Value := "b", ExpireAt := (110 : Time) + 20 } ∧
    (((NewCache 0).Set "k" "a" 50 100).Set "k" "b" 20 110).items.lookup "k" =
      some { Value := "b", ExpireAt := (110 : Time) + 20 } ∧
    ((NewCache 0).Set "k" "a" 50 100).Set "k" "b" 20 110 = (NewCache 0).Set "k" "b" 20 110 :=
  set_last_write_wins (NewCache 0) "k" "a" "b" 50 20 100 110 (by decide)

/-! ## The sweep pass -/

theorem Cache.cleanExpired_lookup_stale (c : Cache) (now : Time) (k : String) (it : Item)
    (h : c.items.lookup k = some it) (hnz : it.ExpireAt ≠ 0) (hpast : it.ExpireAt < now) :
    (c.cleanExpired now).items.lookup k = none := by
  rw [Cache.lookup_cleanExpired, h]
  simp [Option.filter, Time.IsZero, Time.After, hnz, hpast]

theorem Cache.cleanExpired_lookup_live (c : Cache) (now : Time) (k : String) (it : Item)
    (h : c.items.lookup k = some it) (hlive : it.ExpireAt = 0 ∨ now ≤ it.ExpireAt) :
    (c.cleanExpired now).items.lookup k = some it := by
  rw [Cache.lookup_cleanExpired, h]
  rcases hlive with h0 | hle
  · simp [Option.filter, Time.IsZero, h0]
  · simp [Option.filter, Time.After, not_lt.mpr hle]

theorem Cache.cleanExpired_lookup_none (c : Cache) (now : Time) (k : String)
    (h : c.items.lookup k = none) : (c.cleanExpired now).items.lookup k = none := by
  rw [Cache.lookup_cleanExpired, h]
  rfl

/-- C11. One sweep pass (`cleanExpired`) at `now` removes every entry whose
`ExpireAt` is non-zero and has passed at `now`, and nothing else: every entry
that is not stale at `now` is still in the table with the same value and
deadline, no key is added, and the other fields of the cache are untouched. -/
theorem cleanExpired_removes_exactly_stale (c : Cache) (now : Time) :
    (∀ (k : String) (it : Item), c.items.lookup k = some it →
      it.ExpireAt ≠ 0 → it.ExpireAt < now → (c.cleanExpired now).items.lookup k = none) ∧
    (∀ (k : String) (it : Item), c.items.lookup k = some it →
      (it.ExpireAt = 0 ∨ now ≤ it.ExpireAt) →
      (c.cleanExpired now).items.lookup k = some it) ∧
    (∀ k : String, c.items.lookup k = none → (c.cleanExpired now).items.lookup k = none) ∧
    (c.cleanExpired now).cleanupInterval = c.cleanupInterval ∧
    (c.cleanExpired now).ticker = c.ticker ∧
    (c.cleanExpired now).stopCh = c.stopCh ∧
    (c.cleanExpired now).running = c.running :=
  ⟨fun k it h hnz hpast => Cache.cleanExpired_lookup_stale c now k it h hnz hpast,
   fun k it h hlive => Cache.cleanExpired_lookup_live c now k it h hlive,
   fun k h => Cache.cleanExpired_lookup_none c now k h,
   rfl, rfl, rfl, rfl⟩

/-! ## Lifecycle of the sweep task -/

theorem Cache.cleanUp_of_disabled (c : Cache)
    (h : c.cleanupInterval ≤ 0 ∨ c.running = true) : c.CleanUp = (c, false) := by
  unfold Cache.CleanUp
  rcases h with h | h
  · rw [if_pos h]
  · by_cases hi : c.cleanupInterval ≤ 0
    · rw [if_pos hi]
    · rw [if_neg hi, if_pos h]

theorem Cache.cleanUp_of_idle (c : Cache) (hi : 0 < c.cleanupInterval)
    (hr : c.running = false) :
    c.CleanUp =
      ({ c with ticker := some { period := c.cleanupInterval, stopped := false }
                running := true }, true) := by
  unfold Cache.CleanUp
  rw [if_neg (not_le.mpr hi), if_neg (by simp [hr])]

theorem Cache.cleanUp_cleanUp (c : Cache) : c.CleanUp.1.CleanUp = (c.CleanUp.1, false) := by
  by_cases h : c.cleanupInterval ≤ 0 ∨ c.running = true
  · rw [Cache.cleanUp_of_disabled c h]
    exact Cache.cleanUp_of_disabled c h
  · have hi : 0 < c.cleanupInterval := not_le.mp (fun hle => h (Or.inl hle))
    have hr : c.running = false := by
      cases hrun : c.running with
      | false => rfl
      | true => exact absurd (Or.inr hrun) h
    rw [Cache.cleanUp_of_idle c hi hr]
    exact Cache.cleanUp_of_disabled _ (Or.inr rfl)

/-- C13. `CleanUp` is a no-op, leaving the whole state unchanged and launching
no goroutine, whenever `cleanupInterval ≤ 0` or the cache is already marked
running; otherwise it marks the cache as running, launches one goroutine and
leaves the table unchanged.  A second `CleanUp` right after a first is a
no-op. -/
theorem cleanUp_noop_or_start (s : Sys) :
    ((s.cache.cleanupInterval ≤ 0 ∨ s.cache.running = true) →
      s.cache.CleanUp = (s.cache, false) ∧ s.step Event.cleanUp = some s) ∧
    ((0 < s.cache.cleanupInterval ∧ s.cache.running = false) →
      ∃ s1 : Sys, s.step Event.cleanUp = some s1 ∧
        s1.cache.running = true ∧
        s1.cache.items = s.cache.items ∧
        s1.cache.ticker = some { period := s.cache.cleanupInterval, stopped := false } ∧
        s1.cache.stopCh = s.cache.stopCh ∧
        s1.cache.cleanupInterval = s.cache.cleanupInterval ∧
        s1.tasks = s.tasks ++ [TaskPc.atLoop]) ∧
    (∀ s1 : Sys, s.step Event.cleanUp = some s1 → s1.step Event.cleanUp = some s1) := by
  refine ⟨fun h => ?_, fun h => ?_, fun s1 h1 => ?_⟩
  · have hc := Cache.cleanUp_of_disabled s.cache h
    refine ⟨hc, ?_⟩
    simp [Sys.step, hc]
  · have hc := Cache.cleanUp_of_idle s.cache h.1 h.2
    refine ⟨_, rfl, ?_⟩
    simp [hc]
  · have hs1 : s1.cache = s.cache.CleanUp.1 := by
      simp only [Sys.step, Option.some.injEq] at h1
      rw [← h1]
    have hc : s1.cache.CleanUp = (s1.cache, false) := by
      rw [hs1]
      exact Cache.cleanUp_cleanUp s.cache
    simp [Sys.step, hc]

theorem Cache.get_congr_items (c d : Cache) (key : String) (now : Time)
    (h : d.items = c.items) :
    (d.Get key now).1 = (c.Get key now).1 ∧ (d.Get key now).2.items = (c.Get key now).2.items := by
  unfold Cache.Get
  rw [h]
  cases c.items.lookup key with
  | none => exact ⟨rfl, h⟩
  | some it =>
    by_cases hst : (!it.ExpireAt.IsZero && now.After it.ExpireAt) = true
    · simp [hst, h]
    · simp [hst, h]

theorem Sys.close_of_not_running (s : Sys) (h : s.cache.running = false) :
    s.Close = some s := by
  simp [Sys.Close, h]

theorem Sys.close_of_running (s : Sys) (hr : s.cache.running = true)
    (hopen : s.cache.stopCh.closed = false ∧ s.cache.stopCh.id ∉ s.closedChans) :
    s.Close = some
      { cache := { s.cache with stopCh := { id := s.nextChan, closed := false } }
        closedChans := s.cache.stopCh.id :: s.closedChans
        nextChan := s.nextChan + 1
        tasks := s.tasks } := by
  simp [Sys.Close, hr, hopen.1, hopen.2]

theorem Sys.close_items (s s1 : Sys) (h : s.Close = some s1) :
    s1.cache.items = s.cache.items ∧ s1.tasks = s.tasks := by
  cases hr : s.cache.running with
  | false =>
    rw [Sys.close_of_not_running s hr] at h
    cases h
    exact ⟨rfl, rfl⟩
  | true =>
    by_cases hc : s.cache.stopCh.closed = true ∨ s.cache.stopCh.id ∈ s.closedChans
    · simp [Sys.Close, hr, hc] at h
    · have hopen : s.cache.stopCh.closed = false ∧ s.cache.stopCh.id ∉ s.closedChans := by
        refine ⟨?_, fun hm => hc (Or.inr hm)⟩
        cases hcl : s.cache.stopCh.closed with
        | false => rfl
        | true => exact absurd (Or.inl hcl) hc
      rw [Sys.close_of_running s hr hopen] at h
      cases h
      exact ⟨rfl, rfl⟩

theorem Sys.step_taskStop (s s2 : Sys) (i : Nat) (h : s.step (Event.taskStop i) = some s2) :
    s2.cache.running = false ∧ s2.cache.items = s.cache.items := by
  simp only [Sys.step] at h
  split at h
  · split at h
    · cases h
      exact ⟨rfl, rfl⟩
    · exact absurd h (by simp)
  · exact absurd h (by simp)

theorem Sys.step_taskStop_of_closed (s : Sys) (i stop : Nat)
    (ht : s.tasks.get? i = some (TaskPc.inSelect stop)) (hc : stop ∈ s.closedChans) :
    s.step (Event.taskStop i) = some
      { s with
        cache := { s.cache with
          ticker := s.cache.ticker.map (fun t => { t with stopped := true })
          running := false }
        tasks := s.tasks.set i TaskPc.exited } := by
  simp only [Sys.step, ht]
  rw [if_pos hc]

theorem Cache.cleanUp_stopCh (c : Cache) : c.CleanUp.1.stopCh = c.stopCh := by
  unfold Cache.CleanUp
  by_cases hi : c.cleanupInterval ≤ 0
  · rw [if_pos hi]
  · rw [if_neg hi]
    by_cases hr : c.running = true
    · rw [if_pos hr]
    · rw [if_neg hr]

theorem Sys.stopChOpen_init (d : Duration) : (Sys.init d).StopChOpen := by
  refine ⟨rfl, ?_, ?_, ?_⟩
  · simp [Sys.init]
  · simp [Sys.init, NewCache]
  · simp [Sys.init]

theorem Sys.stopChOpen_close (s s1 : Sys) (hinv : s.StopChOpen) (h : s.Close = some s1) :
    s1.StopChOpen := by
  cases hr : s.cache.running with
  | false =>
    rw [Sys.close_of_not_running s hr] at h
    cases h
    exact hinv
  | true =>
    rw [Sys.close_of_running s hr ⟨hinv.1, hinv.2.1⟩] at h
    cases h
    refine ⟨rfl, ?_, Nat.lt_succ_self _, ?_⟩
    · intro hm
      rcases List.mem_cons.mp hm with h0 | h0
      · exact absurd h0 (Nat.ne_of_gt hinv.2.2.1)
      · exact absurd (hinv.2.2.2 _ h0) (Nat.lt_irrefl _)
    · intro i hi
      rcases List.mem_cons.mp hi with h0 | h0
      · rw [h0]
        exact Nat.lt_succ_of_lt hinv.2.2.1
      · exact Nat.lt_succ_of_lt (hinv.2.2.2 i h0)

theorem Sys.stopChOpen_step (s s1 : Sys) (e : Event) (hinv : s.StopChOpen)
    (h : s.step e = some s1) : s1.StopChOpen := by
  cases e with
  | cleanUp =>
    simp only [Sys.step, Option.some.injEq] at h
    rw [← h]
    show (s.cache.CleanUp.1.stopCh.closed = false ∧ s.cache.CleanUp.1.stopCh.id ∉ s.closedChans ∧
      s.cache.CleanUp.1.stopCh.id < s.nextChan ∧ ∀ i ∈ s.closedChans, i < s.nextChan)
    rw [Cache.cleanUp_stopCh]
    exact hinv
  | close => exact Sys.stopChOpen_close s s1 hinv h
  | taskSelect i =>
    simp only [Sys.step] at h
    split at h
    · cases h
      exact hinv
    · exact absurd h (by simp)
  | taskTick i now =>
    simp only [Sys.step] at h
    split at h
    · cases h
      exact hinv
    · exact absurd h (by simp)
  | taskStop i =>
    simp only [Sys.step] at h
    split at h
    · split at h
      · cases h
        exact hinv
      · exact absurd h (by simp)
    · exact absurd h (by simp)

theorem Sys.stopChOpen_run (es : List Event) :
    ∀ s s1 : Sys, s.StopChOpen → s.run es = some s1 → s1.StopChOpen := by
  induction es with
  | nil =>
    intro s s1 hinv h
    simp only [Sys.run, Option.some.injEq] at h
    rw [← h]
    exact hinv
  | cons e es ih =>
    intro s s1 hinv h
    simp only [Sys.run] at h
    cases hs : s.step e with
    | none =>
      rw [hs] at h
      exact absurd h (by simp)
    | some s2 =>
      rw [hs] at h
      exact ih s2 s1 (Sys.stopChOpen_step s s2 e hinv hs) h

/-- C14. `Close` never changes the table: whenever it returns, the table is
the one before the call, so `Get` and `Delete` behave on it as before.  When the
cache is not marked running, `Close` returns and leaves the whole system state
unchanged; this covers a cache that was never started and a second `Close`
after the goroutine has taken its stop branch.  `Close` returns in every state
whose stop channel is open, which includes every state reached from `NewCache`
by a schedule. -/
theorem close_keeps_table (s : Sys) :
    (∀ s1 : Sys, s.Close = some s1 →
      s1.cache.items = s.cache.items ∧
      (∀ (key : String) (now : Time),
        (s1.cache.Get key now).1 = (s.cache.Get key now).1 ∧
        (s1.cache.Get key now).2.items = (s.cache.Get key now).2.items) ∧
      (∀ key : String, (s1.cache.Delete key).items = (s.cache.Delete key).items)) ∧
    (s.cache.running = false → s.Close = some s) ∧
    ((s.cache.stopCh.closed = false ∧ s.cache.stopCh.id ∉ s.closedChans) →
      ∃ s1 : Sys, s.Close = some s1) ∧
    (∀ d : Duration, (Sys.init d).Close = some (Sys.init d)) ∧
    (∀ (s1 s2 : Sys) (i : Nat), s.Close = some s1 →
      s1.step (Event.taskStop i) = some s2 → s2.Close = some s2) ∧
    (∀ (d : Duration) (es : List Event), (Sys.init d).run es = some s →
      ∃ s1 : Sys, s.Close = some s1) := by
  have htotal : (s.cache.stopCh.closed = false ∧ s.cache.stopCh.id ∉ s.closedChans) →
      ∃ s1 : Sys, s.Close = some s1 := by
    intro hopen
    cases hr : s.cache.running with
    | false => exact ⟨s, Sys.close_of_not_running s hr⟩
    | true => exact ⟨_, Sys.close_of_running s hr hopen⟩
  refine ⟨fun s1 h1 => ?_, Sys.close_of_not_running s, htotal,
    fun d => Sys.close_of_not_running _ rfl, fun s1 s2 i _ h2 => ?_, fun d es hrun => ?_⟩
  · have hi := (Sys.close_items s s1 h1).1
    refine ⟨hi, fun key now => Cache.get_congr_items s.cache s1.cache key now hi, fun key => ?_⟩
    show s1.cache.items.erase key = s.cache.items.erase key
    rw [hi]
  · exact Sys.close_of_not_running s2 (Sys.step_taskStop s1 s2 i h2).1
  · have hinv := Sys.stopChOpen_run es (Sys.init d) s (Sys.stopChOpen_init d) hrun
    exact htotal ⟨hinv.1, hinv.2.1⟩

/-- C15, as stated, fails right after `Close` returns: with the goroutine
waiting in its `select`, `CleanUp(); Close(); CleanUp()` leaves the cache marked
running after `Close`, and the second `CleanUp` is a no-op that launches
nothing. -/
theorem cleanUp_right_after_close_is_noop :
    ((Sys.init 30).run [Event.cleanUp, Event.taskSelect 0]).map
        (fun s => (decide (0 < s.cache.cleanupInterval), s.cache.running, s.tasks)) =
      some (true, true, [TaskPc.inSelect 0]) ∧
    ((Sys.init 30).run [Event.cleanUp, Event.taskSelect 0, Event.close]).map
        (fun s => (s.cache.running, s.tasks)) = some (true, [TaskPc.inSelect 0]) ∧
    (Sys.init 30).run [Event.cleanUp, Event.taskSelect 0, Event.close, Event.cleanUp] =
      (Sys.init 30).run [Event.cleanUp, Event.taskSelect 0, Event.close] := by
  decide

/-- C15 (amended). For a cache with `cleanupInterval > 0` that is marked running
and whose goroutine waits in its `select` on the current stop channel: `Close`
returns with the cache still marked running; once the goroutine has taken its
stop branch the cache is idle; and a `CleanUp` after that is accepted: it marks
the cache running again and launches a new goroutine, the table being the same
throughout. -/
theorem close_stop_cleanUp_restarts (s : Sys) (i : Nat)
    (hint : 0 < s.cache.cleanupInterval) (hrun : s.cache.running = true)
    (hopen : s.cache.stopCh.closed = false ∧ s.cache.stopCh.id ∉ s.closedChans)
    (htask : s.tasks.get? i = some (TaskPc.inSelect s.cache.stopCh.id)) :
    ∃ s1 s2 s3 : Sys,
      s.step Event.close = some s1 ∧
      s1.step (Event.taskStop i) = some s2 ∧
      s2.step Event.cleanUp = some s3 ∧
      s1.cache.running = true ∧
      s2.cache.running = false ∧
      s2.tasks = s.tasks.set i TaskPc.exited ∧
      s3.cache.running = true ∧
      s3.tasks = s.tasks.set i TaskPc.exited ++ [TaskPc.atLoop] ∧
      s3.cache.items = s.cache.items := by
  have h1 := Sys.close_of_running s hrun hopen
  refine ⟨_, _, _, h1,
    Sys.step_taskStop_of_closed _ i _ htask (List.mem_cons_self _ _), rfl, hrun, rfl, rfl,
    ?_, ?_, ?_⟩
  · simp [Cache.CleanUp, not_le.mpr hint]
  · simp [Cache.CleanUp, not_le.mpr hint]
  · simp [Cache.CleanUp, not_le.mpr hint]

/-- Instance of C15 (amended): the cache of `NewCache(30)` after `CleanUp()`,
its goroutine waiting in `select` on channel `0`. -/
theorem close_stop_cleanUp_restarts_witness :
    ∃ s1 s2 s3 : Sys,
      (Sys.mk (NewCache 30).CleanUp.1 [] 1 [TaskPc.inSelect 0]).step Event.close = some s1 ∧
      s1.step (Event.taskStop 0) = some s2 ∧
      s2.step Event.cleanUp = some s3 ∧
      s1.cache.running = true ∧
      s2.cache.running = false ∧
      s2.tasks = [TaskPc.inSelect 0].set 0 TaskPc.exited ∧
      s3.cache.running = true ∧
      s3.tasks = [TaskPc.inSelect 0].set 0 TaskPc.exited ++ [TaskPc.atLoop] ∧
      s3.cache.items = (NewCache 30).CleanUp.1.items :=
  close_stop_cleanUp_restarts (Sys.mk (NewCache 30).CleanUp.1 [] 1 [TaskPc.inSelect 0]) 0
    (by decide) (by decide) (by decide) (by decide)

/-- C16 fails on the schedule where the goroutine launched by `CleanUp` first
runs after `Close` has returned.  With key `a` set at time `1000` with ttl
`40`: after `CleanUp(); Close()` the table still holds `a`; the goroutine then
enters `select` on the fresh, open stop channel `1`, so its stop branch cannot
be taken, and on the tick at time `1060` it sweeps `a` out of the table; the
cache stays marked running with a live ticker and the goroutine is back at the
head of its loop. -/
theorem close_misses_unscheduled_task :
    ((Sys.mk ((NewCache 30).Set "a" "1" 40 1000) [] 1 []).run
        [Event.cleanUp, Event.close]).map
        (fun s => (s.cache.items.lookup "a", s.tasks, s.closedChans, s.cache.stopCh)) =
      some (some ⟨"1", 1040⟩, [TaskPc.atLoop], [0], ⟨1, false⟩) ∧
    ((Sys.mk ((NewCache 30).Set "a" "1" 40 1000) [] 1 []).run
        [Event.cleanUp, Event.close, Event.taskSelect 0]).map Sys.tasks =
      some [TaskPc.inSelect 1] ∧
    (Sys.mk ((NewCache 30).Set "a" "1" 40 1000) [] 1 []).run
        [Event.cleanUp, Event.close, Event.taskSelect 0, Event.taskStop 0] = none ∧
    ((Sys.mk ((NewCache 30).Set "a" "1" 40 1000) [] 1 []).run
        [Event.cleanUp, Event.close, Event.taskSelect 0, Event.taskTick 0 1060]).map
        (fun s => (s.cache.items.lookup "a", s.tasks, s.cache.running, s.cache.ticker)) =
      some (none, [TaskPc.atLoop], true, some ⟨30, false⟩) := by
  decide

/-! ## Reads, frames and the sweep seen from readers -/

theorem Cache.get_congr_lookup (c d : Cache) (key : String) (now : Time)
    (h : d.items.lookup key = c.items.lookup key) : (d.Get key now).1 = (c.Get key now).1 := by
  unfold Cache.Get
  rw [h]
  cases c.items.lookup key with
  | none => rfl
  | some it =>
    by_cases hst : (!it.ExpireAt.IsZero && now.After it.ExpireAt) = true
    · simp [hst]
    · simp [hst]

theorem Cache.get_items (c : Cache) (key : String) (now : Time) :
    (c.Get key now).2.items = c.items ∨ (c.Get key now).2.items = c.items.erase key := by
  unfold Cache.Get
  cases c.items.lookup key with
  | none => exact Or.inl rfl
  | some it =>
    by_cases hst : (!it.ExpireAt.IsZero && now.After it.ExpireAt) = true
    · simp [hst]
    · simp [hst]

/-- C17. `Get` never returns a stale value: `Get(key)` at `now` returns
`(v, true)` exactly when the table holds for `key` an entry with value `v` whose
`ExpireAt` is zero or has not passed at `now`, and then the state is unchanged;
in every other case it returns `("", false)`. -/
theorem get_never_stale (c : Cache) (key : String) (now : Time) :
    (∀ v : String, (c.Get key now).1 = (v, true) ↔
      ∃ it : Item, c.items.lookup key = some it ∧ it.Value = v ∧
        (it.ExpireAt = 0 ∨ now ≤ it.ExpireAt)) ∧
    ((c.Get key now).1.2 = true → (c.Get key now).2 = c) ∧
    ((c.Get key now).1.2 = false → (c.Get key now).1 = ("", false)) := by
  cases hl : c.items.lookup key with
  | none =>
    rw [Cache.get_of_lookup_none c key now hl]
    simp
  | some it =>
    by_cases hlive : it.ExpireAt = 0 ∨ now ≤ it.ExpireAt
    · rw [Cache.get_of_live c key now it hl hlive]
      simp [hlive]
    · have hnz : it.ExpireAt ≠ 0 := fun h => hlive (Or.inl h)
      have hpast : it.ExpireAt < now := not_le.mp (fun h => hlive (Or.inr h))
      rw [Cache.get_of_stale c key now it hl hnz hpast]
      simp [hlive]

/-- C18. Per-key frame: for distinct keys `k` and `k2`, `Set(k, value, ttl)`
for any `ttl`, `Get(k)`, `Exists(k)` and `Delete(k)` leave the entry of `k2`
as it was, so `Get(k2)` at any time `t` returns the same result after the
operation on `k` as before it. -/
theorem other_key_untouched (c : Cache) (k k2 value : String) (ttl : Duration)
    (now t : Time) (hne : k ≠ k2) :
    ((c.Set k value ttl now).items.lookup k2 = c.items.lookup k2 ∧
      (c.Get k now).2.items.lookup k2 = c.items.lookup k2 ∧
      (c.Exists k now).2.items.lookup k2 = c.items.lookup k2 ∧
      (c.Delete k).items.lookup k2 = c.items.lookup k2) ∧
    (((c.Set k value ttl now).Get k2 t).1 = (c.Get k2 t).1 ∧
      ((c.Get k now).2.Get k2 t).1 = (c.Get k2 t).1 ∧
      ((c.Exists k now).2.Get k2 t).1 = (c.Get k2 t).1 ∧
      ((c.Delete k).Get k2 t).1 = (c.Get k2 t).1) := by
  have hne2 : k2 ≠ k := fun h => hne h.symm
  have hdel : (c.Delete k).items.lookup k2 = c.items.lookup k2 := AList.lookup_erase_ne hne2
  have hset : (c.Set k value ttl now).items.lookup k2 = c.items.lookup k2 := by
    unfold Cache.Set
    by_cases httl : ttl ≤ 0
    · rw [if_pos httl]
      exact hdel
    · rw [if_neg httl]
      exact AList.lookup_insert_ne hne2
  have hget : (c.Get k now).2.items.lookup k2 = c.items.lookup k2 := by
    rcases Cache.get_items c k now with h | h
    · rw [h]
    · rw [h]
      exact AList.lookup_erase_ne hne2
  have hex : (c.Exists k now).2.items.lookup k2 = c.items.lookup k2 := hget
  exact ⟨⟨hset, hget, hex, hdel⟩,
    Cache.get_congr_lookup c _ k2 t hset, Cache.get_congr_lookup c _ k2 t hget,
    Cache.get_congr_lookup c _ k2 t hex, Cache.get_congr_lookup c _ k2 t hdel⟩

/-- Instance of C18: operations on key `a` in a cache that holds key `b`. -/
theorem other_key_untouched_witness :
    ((((NewCache 0).Set "b" "2" 40 100).Set "a" "1" 10 120).items.lookup "b" =
        ((NewCache 0).Set "b" "2" 40 100).items.lookup "b" ∧
      (((NewCache 0).Set "b" "2" 40 100).Get "a" 120).2.items.lookup "b" =
        ((NewCache 0).Set "b" "2" 40 100).items.lookup "b" ∧
      (((NewCache 0).Set "b" "2" 40 100).Exists "a" 120).2.items.lookup "b" =
        ((NewCache 0).Set "b" "2" 40 100).items.lookup "b" ∧
      (((NewCache 0).Set "b" "2" 40 100).Delete "a").items.lookup "b" =
        ((NewCache 0).Set "b" "2" 40 100).items.lookup "b") ∧
    (((((NewCache 0).Set "b" "2" 40 100).Set "a" "1" 10 120).Get "b" 130).1 =
        (((NewCache 0).Set "b" "2" 40 100).Get "b" 130).1 ∧
      ((((NewCache 0).Set "b" "2" 40 100).Get "a" 120).2.Get "b" 130).1 =
        (((NewCache 0).Set "b" "2" 40 100).Get "b" 130).1 ∧
      ((((NewCache 0).Set "b" "2" 40 100).Exists "a" 120).2.Get "b" 130).1 =
        (((NewCache 0).Set "b" "2" 40 100).Get "b" 130).1 ∧
      ((((NewCache 0).Set "b" "2" 40 100).Delete "a").Get "b" 130).1 =
        (((NewCache 0).Set "b" "2" 40 100).Get "b" 130).1) :=
  other_key_untouched ((NewCache 0).Set "b" "2" 40 100) "a" "b" "1" 10 120 130 (by decide)

/-- C19. The sweep is invisible to readers: for `now1 ≤ now2`, `Get(key)` at
`now2` returns the same `(value, found)` on the table swept at `now1` as on the
table that was not swept. -/
theorem sweep_invisible_to_get (c : Cache) (key : String) (now1 now2 : Time)
    (hle : now1 ≤ now2) :
    ((c.cleanExpired now1).Get key now2).1 = (c.Get key now2).1 := by
  cases hl : c.items.lookup key with
  | none =>
    rw [Cache.get_of_lookup_none c key now2 hl,
      Cache.get_of_lookup_none _ key now2 (Cache.cleanExpired_lookup_none c now1 key hl)]
  | some it =>
    by_cases hlive : it.ExpireAt = 0 ∨ now1 ≤ it.ExpireAt
    · exact Cache.get_congr_lookup c _ key now2
        ((Cache.cleanExpired_lookup_live c now1 key it hl hlive).trans hl.symm)
    · have hnz : it.ExpireAt ≠ 0 := fun h => hlive (Or.inl h)
      have hpast : it.ExpireAt < now1 := not_le.mp (fun h => hlive (Or.inr h))
      rw [Cache.get_of_lookup_none _ key now2
          (Cache.cleanExpired_lookup_stale c now1 key it hl hnz hpast),
        Cache.get_of_stale c key now2 it hl hnz (lt_of_lt_of_le hpast hle)]

/-- Instance of C19: an entry with deadline `140`, swept at `150` and read at
`160`. -/
theorem sweep_invisible_to_get_witness :
    ((((NewCache 30).Set "a" "1" 40 100).cleanExpired 150).Get "a" 160).1 =
      (((NewCache 30).Set "a" "1" 40 100).Get "a" 160).1 :=
  sweep_invisible_to_get ((NewCache 30).Set "a" "1" 40 100) "a" 150 160 (by decide)

theorem Table.foldl_sweepEntry_of_live (now : Time) :
    ∀ (l : List ((_ : String) × Item)) (m : Table),
      (∀ e ∈ l, (!e.2.ExpireAt.IsZero && now.After e.2.ExpireAt) = false) →
      l.foldl (sweepEntry now) m = m := by
  intro l
  induction l with
  | nil => intro m _; rfl
  | cons e l ih =>
    intro m h
    have he : sweepEntry now m e = m := by
      unfold sweepEntry
      rw [h e (List.mem_cons_self _ _)]
      rfl
    rw [List.foldl_cons, he]
    exact ih m (fun e1 h1 => h e1 (List.mem_cons_of_mem _ h1))

theorem Cache.cleanExpired_entries_live (c : Cache) (now : Time) :
    ∀ e ∈ (c.cleanExpired now).items.entries,
      (!e.2.ExpireAt.IsZero && now.After e.2.ExpireAt) = false := by
  rintro ⟨k, it⟩ hmem
  have h1 : it ∈ (c.cleanExpired now).items.lookup k := AList.mem_lookup_iff.mpr hmem
  rw [Cache.lookup_cleanExpired] at h1
  cases hl : c.items.lookup k with
  | none =>
    rw [hl] at h1
    exact absurd h1 (by simp [Option.filter])
  | some it1 =>
    rw [hl] at h1
    by_cases hst : (!it1.ExpireAt.IsZero && now.After it1.ExpireAt) = true
    · exact absurd h1 (by simp [Option.filter, hst])
    · have h2 : it1 = it := by simpa [Option.filter, hst] using h1
      subst h2
      simpa using hst

theorem Cache.cleanExpired_idem (c : Cache) (now : Time) :
    (c.cleanExpired now).cleanExpired now = c.cleanExpired now := by
  have h := Table.foldl_sweepEntry_of_live now (c.cleanExpired now).items.entries
    (c.cleanExpired now).items (Cache.cleanExpired_entries_live c now)
  show { c.cleanExpired now with
      items := (c.cleanExpired now).items.entries.foldl (sweepEntry now)
        (c.cleanExpired now).items } = c.cleanExpired now
  rw [h]

/-- C20. Right after a sweep pass at `now`, `Keys()` contains exactly the keys
for which `Get`, and so `Exists`, at `now` reports found on the table before
the sweep; and a second sweep pass at the same `now` changes nothing. -/
theorem keys_after_sweep (c : Cache) (now : Time) :
    (∀ k : String, k ∈ (c.cleanExpired now).Keys.1 ↔ (c.Get k now).1.2 = true) ∧
    (∀ k : String, k ∈ (c.cleanExpired now).Keys.1 ↔ (c.Exists k now).1 = true) ∧
    (c.cleanExpired now).cleanExpired now = c.cleanExpired now := by
  have hkeys : ∀ k : String, k ∈ (c.cleanExpired now).Keys.1 ↔ (c.Get k now).1.2 = true := by
    intro k
    rw [Cache.keys_eq, ← AList.mem_keys, ← AList.lookup_isSome]
    cases hl : c.items.lookup k with
    | none =>
      rw [Cache.cleanExpired_lookup_none c now k hl, Cache.get_of_lookup_none c k now hl]
      simp
    | some it =>
      by_cases hlive : it.ExpireAt = 0 ∨ now ≤ it.ExpireAt
      · rw [Cache.cleanExpired_lookup_live c now k it hl hlive,
          Cache.get_of_live c k now it hl hlive]
        simp
      · have hnz : it.ExpireAt ≠ 0 := fun h => hlive (Or.inl h)
        have hpast : it.ExpireAt < now := not_le.mp (fun h => hlive (Or.inr h))
        rw [Cache.cleanExpired_lookup_stale c now k it hl hnz hpast,
          Cache.get_of_stale c k now it hl hnz hpast]
        simp
  exact ⟨hkeys, hkeys, Cache.cleanExpired_idem c now⟩

/-! ## Expiry under interleaved actions

Between the `Set` that arms a deadline and the read or sweep that meets it, the
callers and the goroutines may take any actions that do not write the key.
Such actions leave the entry of the key as it is or remove it.
-/

theorem Cache.cleanExpired_lookup_or (c : Cache) (now : Time) (k : String) :
    (c.cleanExpired now).items.lookup k = c.items.lookup k ∨
      (c.cleanExpired now).items.lookup k = none := by
  cases hl : c.items.lookup k with
  | none => exact Or.inr (Cache.cleanExpired_lookup_none c now k hl)
  | some it =>
    by_cases hlive : it.ExpireAt = 0 ∨ now ≤ it.ExpireAt
    · exact Or.inl (Cache.cleanExpired_lookup_live c now k it hl hlive)
    · exact Or.inr (Cache.cleanExpired_lookup_stale c now k it hl
        (fun h => hlive (Or.inl h)) (not_le.mp (fun h => hlive (Or.inr h))))

theorem Cache.get_lookup_or (c : Cache) (key k : String) (now : Time) :
    (c.Get key now).2.items.lookup k = c.items.lookup k ∨
      (c.Get key now).2.items.lookup k = none := by
  rcases Cache.get_items c key now with h | h
  · rw [h]
    exact Or.inl rfl
  · rw [h]
    by_cases hk : k = key
    · rw [hk]
      exact Or.inr (AList.lookup_erase _ _)
    · exact Or.inl (AList.lookup_erase_ne hk)

theorem Cache.cleanUp_items (c : Cache) : c.CleanUp.1.items = c.items := by
  unfold Cache.CleanUp
  by_cases hi : c.cleanupInterval ≤ 0
  · rw [if_pos hi]
  · rw [if_neg hi]
    by_cases hr : c.running = true
    · rw [if_pos hr]
    · rw [if_neg hr]

theorem Sys.step_lookup_or (s s1 : Sys) (e : Event) (k : String) (h : s.step e = some s1) :
    s1.cache.items.lookup k = s.cache.items.lookup k ∨ s1.cache.items.lookup k = none := by
  cases e with
  | cleanUp =>
    simp only [Sys.step, Option.some.injEq] at h
    rw [← h]
    show s.cache.CleanUp.1.items.lookup k = _ ∨ _
    rw [Cache.cleanUp_items]
    exact Or.inl rfl
  | close =>
    rw [(Sys.close_items s s1 h).1]
    exact Or.inl rfl
  | taskSelect i =>
    simp only [Sys.step] at h
    split at h
    · cases h
      exact Or.inl rfl
    · exact absurd h (by simp)
  | taskTick i now =>
    simp only [Sys.step] at h
    split at h
    · cases h
      exact Cache.cleanExpired_lookup_or s.cache now k
    · exact absurd h (by simp)
  | taskStop i =>
    rw [(Sys.step_taskStop s s1 i h).2]
    exact Or.inl rfl

theorem Sys.apply_lookup_or (s s1 : Sys) (op : Op) (key : String)
    (hw : op.writes key = false) (h : s.apply op = some s1) :
    s1.cache.items.lookup key = s.cache.items.lookup key ∨
      s1.cache.items.lookup key = none := by
  cases op with
  | callSet k value ttl now =>
    have hk : key ≠ k := by
      intro hk
      simp [Op.writes, hk] at hw
    simp only [Sys.apply, Option.some.injEq] at h
    rw [← h]
    show (s.cache.Set k value ttl now).items.lookup key = _ ∨ _
    unfold Cache.Set
    by_cases httl : ttl ≤ 0
    · rw [if_pos httl]
      exact Or.inl (AList.lookup_erase_ne hk)
    · rw [if_neg httl]
      exact Or.inl (AList.lookup_insert_ne hk)
  | callGet k now =>
    simp only [Sys.apply, Option.some.injEq] at h
    rw [← h]
    exact Cache.get_lookup_or s.cache k key now
  | callExists k now =>
    simp only [Sys.apply, Option.some.injEq] at h
    rw [← h]
    exact Cache.get_lookup_or s.cache k key now
  | callDelete k =>
    have hk : key ≠ k := by
      intro hk
      simp [Op.writes, hk] at hw
    simp only [Sys.apply, Option.some.injEq] at h
    rw [← h]
    exact Or.inl (AList.lookup_erase_ne hk)
  | callKeys =>
    simp only [Sys.apply, Option.some.injEq] at h
    rw [← h]
    exact Or.inl rfl
  | event e => exact Sys.step_lookup_or s s1 e key h

theorem Sys.exec_lookup_or (key : String) (ops : List Op) :
    ∀ s s1 : Sys, (∀ op ∈ ops, op.writes key = false) → s.exec ops = some s1 →
      s1.cache.items.lookup key = s.cache.items.lookup key ∨
        s1.cache.items.lookup key = none := by
  induction ops with
  | nil =>
    intro s s1 _ h
    simp only [Sys.exec, Option.some.injEq] at h
    rw [← h]
    exact Or.inl rfl
  | cons op ops ih =>
    intro s s1 hw h
    simp only [Sys.exec] at h
    cases hs : s.apply op with
    | none =>
      rw [hs] at h
      exact absurd h (by simp)
    | some s2 =>
      rw [hs] at h
      have h2 := Sys.apply_lookup_or s s2 op key (hw op (List.mem_cons_self _ _)) hs
      have h1 := ih s2 s1 (fun o ho => hw o (List.mem_cons_of_mem _ ho)) h
      rcases h1 with h1 | h1
      · rcases h2 with h2 | h2
        · exact Or.inl (h1.trans h2)
        · exact Or.inr (h1.trans h2)
      · exact Or.inr h1

theorem Sys.exec_cons (s s1 : Sys) (op : Op) (ops : List Op)
    (h : s.exec (op :: ops) = some s1) :
    ∃ s2 : Sys, s.apply op = some s2 ∧ s2.exec ops = some s1 := by
  simp only [Sys.exec] at h
  cases hs : s.apply op with
  | none =>
    rw [hs] at h
    exact absurd h (by simp)
  | some s2 =>
    rw [hs] at h
    exact ⟨s2, rfl, h⟩

theorem Sys.exec_append (ops1 ops2 : List Op) :
    ∀ s s1 : Sys, s.exec (ops1 ++ ops2) = some s1 →
      ∃ s2 : Sys, s.exec ops1 = some s2 ∧ s2.exec ops2 = some s1 := by
  induction ops1 with
  | nil =>
    intro s s1 h
    exact ⟨s, rfl, h⟩
  | cons op ops ih =>
    intro s s1 h
    obtain ⟨s2, h2, h3⟩ := Sys.exec_cons s s1 op (ops ++ ops2) h
    obtain ⟨s3, h4, h5⟩ := ih s2 s1 h3
    refine ⟨s3, ?_, h5⟩
    simp only [Sys.exec, h2]
    exact h4

theorem Sys.lookup_after_set (s s1 : Sys) (key value : String) (ttl : Duration) (t0 : Nat)
    (ops : List Op) (httl : 0 < ttl) (hw : ∀ op ∈ ops, op.writes key = false)
    (h : s.exec (Op.callSet key value ttl (t0 : Time) :: ops) = some s1) :
    s1.cache.items.lookup key = some { Value := value, ExpireAt := (t0 : Time) + ttl } ∨
      s1.cache.items.lookup key = none := by
  obtain ⟨s2, h2, h3⟩ := Sys.exec_cons s s1 _ ops h
  simp only [Sys.apply, Option.some.injEq] at h2
  have hset : s2.cache.items.lookup key =
      some { Value := value, ExpireAt := (t0 : Time) + ttl } := by
    rw [← h2]
    simp [Cache.Set, not_le.mpr httl, Time.Add]
  rcases Sys.exec_lookup_or key ops s2 s1 hw h3 with h4 | h4
  · exact Or.inl (h4.trans hset)
  · exact Or.inr h4

/-- C2 (amended). After `Set(key, value, ttl)` with `ttl > 0` at the clock
reading `t0`, followed by any actions that do not write `key`, a `Get(key)` at
a time `t` with `t - t0 > ttl` returns `("", false)`; and after that `Get` and
any further actions that do not write `key`, `Exists(key)` returns `false`, at
any time. -/
theorem set_get_after_expiry (s s1 s2 : Sys) (key value : String) (ttl : Duration)
    (t0 : Nat) (t : Time) (ops1 ops2 : List Op)
    (httl : 0 < ttl) (hgt : ttl < t - (t0 : Time))
    (hw1 : ∀ op ∈ ops1, op.writes key = false)
    (hw2 : ∀ op ∈ ops2, op.writes key = false)
    (h1 : s.exec (Op.callSet key value ttl (t0 : Time) :: ops1) = some s1)
    (h2 : s1.exec (Op.callGet key t :: ops2) = some s2) :
    (s1.cache.Get key t).1 = ("", false) ∧
    ∀ t1 : Time, (s2.cache.Exists key t1).1 = false := by
  have h0 : (0 : Time) ≤ (t0 : Time) := Int.natCast_nonneg t0
  obtain ⟨s3, h3, h4⟩ := Sys.exec_cons s1 s2 _ ops2 h2
  simp only [Sys.apply, Option.some.injEq] at h3
  have hget : (s1.cache.Get key t).1 = ("", false) ∧
      (s1.cache.Get key t).2.items.lookup key = none := by
    rcases Sys.lookup_after_set s s1 key value ttl t0 ops1 httl hw1 h1 with hl | hl
    · rw [Cache.get_of_stale s1.cache key t _ hl
        (by show (t0 : Time) + ttl ≠ 0; exact ne_of_gt (by linarith))
        (by show (t0 : Time) + ttl < t; linarith)]
      exact ⟨rfl, AList.lookup_erase _ _⟩
    · rw [Cache.get_of_lookup_none s1.cache key t hl]
      exact ⟨rfl, hl⟩
  refine ⟨hget.1, fun t1 => ?_⟩
  have hs3 : s3.cache.items.lookup key = none := by
    rw [← h3]
    exact hget.2
  have hs2 : s2.cache.items.lookup key = none := by
    rcases Sys.exec_lookup_or key ops2 s3 s2 hw2 h4 with h5 | h5
    · exact h5.trans hs3
    · exact h5
  simp [Cache.Exists, Cache.get_of_lookup_none s2.cache key t1 hs2]

/-- Instance of C2 (amended): `Set("k", "v", 50)` at time `100` on a cache
whose sweep is started; before the deadline `k` is read, another key is set and
a sweep pass runs; `Get("k")` at time `190` finds nothing, and neither does
`Exists("k")` after a further sweep pass. -/
theorem set_get_after_expiry_witness :
    ∃ s1 s2 : Sys,
      (Sys.init 30).exec
        [Op.callSet "k" "v" 50 ((100 : Nat) : Time), Op.event Event.cleanUp,
          Op.event (Event.taskSelect 0), Op.callGet "k" 120, Op.callSet "j" "w" 500 130,
          Op.event (Event.taskTick 0 140), Op.callKeys] = some s1 ∧
      s1.exec
        [Op.callGet "k" 190, Op.event (Event.taskSelect 0), Op.event (Event.taskTick 0 200),
          Op.callExists "j" 210] = some s2 ∧
      (s1.cache.Get "k" 190).1 = ("", false) ∧
      ∀ t1 : Time, (s2.cache.Exists "k" t1).1 = false :=
  ⟨_, _, rfl, rfl,
    set_get_after_expiry (Sys.init 30) _ _ "k" "v" 50 100 190
      [Op.event Event.cleanUp, Op.event (Event.taskSelect 0), Op.callGet "k" 120,
        Op.callSet "j" "w" 500 130, Op.event (Event.taskTick 0 140), Op.callKeys]
      [Op.event (Event.taskSelect 0), Op.event (Event.taskTick 0 200), Op.callExists "j" 210]
      (by decide) (by decide) (by decide) (by decide) rfl rfl⟩

/-- C12. An expired entry is removed by the sweep with no read against it:
after `Set(key, value, ttl)` with `ttl > 0` at the clock reading `t0`, followed
by any actions that do not write `key`, a sweep pass of the goroutine that
starts at a time `sw` after the deadline `t0 + ttl` removes the entry: after it,
and after any further actions that do not write `key`, `Keys()` does not
contain `key` and `Get(key)`, at any time, returns `("", false)`. -/
theorem sweep_removes_expired_without_reads (s s2 : Sys) (key value : String)
    (ttl : Duration) (t0 : Nat) (sw : Time) (i : Nat) (ops1 ops2 : List Op)
    (httl : 0 < ttl) (hs : (t0 : Time) + ttl < sw)
    (hw1 : ∀ op ∈ ops1, op.writes key = false)
    (hw2 : ∀ op ∈ ops2, op.writes key = false)
    (h : s.exec (Op.callSet key value ttl (t0 : Time) ::
      (ops1 ++ Op.event (Event.taskTick i sw) :: ops2)) = some s2) :
    key ∉ s2.cache.Keys.1 ∧ ∀ t : Time, (s2.cache.Get key t).1 = ("", false) := by
  have h0 : (0 : Time) ≤ (t0 : Time) := Int.natCast_nonneg t0
  obtain ⟨s1, h1, h2⟩ := Sys.exec_append (Op.callSet key value ttl (t0 : Time) :: ops1)
    (Op.event (Event.taskTick i sw) :: ops2) s s2 h
  obtain ⟨s3, h3, h4⟩ := Sys.exec_cons s1 s2 _ ops2 h2
  have hs3 : s3.cache.items.lookup key = none := by
    simp only [Sys.apply, Sys.step] at h3
    split at h3
    · cases h3
      rcases Sys.lookup_after_set s s1 key value ttl t0 ops1 httl hw1 h1 with hl | hl
      · exact Cache.cleanExpired_lookup_stale s1.cache sw key _ hl
          (by show (t0 : Time) + ttl ≠ 0; exact ne_of_gt (by linarith)) hs
      · exact Cache.cleanExpired_lookup_none s1.cache sw key hl
    · exact absurd h3 (by simp)
  have hs2 : s2.cache.items.lookup key = none := by
    rcases Sys.exec_lookup_or key ops2 s3 s2 hw2 h4 with h5 | h5
    · exact h5.trans hs3
    · exact h5
  refine ⟨?_, fun t => by rw [Cache.get_of_lookup_none _ key t hs2]⟩
  rw [Cache.keys_eq]
  exact AList.lookup_eq_none.mp hs2

/-- Instance of C12 on the scenario of `TestCleanup_RemovesExpired`: sweep
started with interval `30`; keys `a` and `b` set with ttl `40` at time `1000`;
sweep passes at `1030`, `1060`, `1090` and `1120`, the one at `1060` being the
first after the deadline; `a` is never read. -/
theorem sweep_removes_expired_without_reads_witness :
    ∃ s2 : Sys,
      (Sys.mk (NewCache 30).CleanUp.1 [] 1 [TaskPc.inSelect 0]).exec
        [Op.callSet "a" "1" 40 ((1000 : Nat) : Time), Op.callSet "b" "2" 40 1000,
          Op.event (Event.taskTick 0 1030), Op.event (Event.taskSelect 0),
          Op.event (Event.taskTick 0 1060),
          Op.event (Event.taskSelect 0), Op.event (Event.taskTick 0 1090),
          Op.event (Event.taskSelect 0), Op.event (Event.taskTick 0 1120)] = some s2 ∧
      "a" ∉ s2.cache.Keys.1 ∧ ∀ t : Time, (s2.cache.Get "a" t).1 = ("", false) :=
  ⟨_, rfl,
    sweep_removes_expired_without_reads
      (Sys.mk (NewCache 30).CleanUp.1 [] 1 [TaskPc.inSelect 0]) _ "a" "1" 40 1000 1060 0
      [Op.callSet "b" "2" 40 1000, Op.event (Event.taskTick 0 1030),
        Op.event (Event.taskSelect 0)]
      [Op.event (Event.taskSelect 0), Op.event (Event.taskTick 0 1090),
        Op.event (Event.taskSelect 0), Op.event (Event.taskTick 0 1120)]
      (by decide) (by decide) (by decide) (by decide) rfl⟩

end TTLCache
